import Mathlib

/-!
Verification development for the SecuritiesCorrelations correlation engine.

The Python sources embedded here are
`scripts/file_reading_funcs.py` (series validation and detrending) and
`scripts/calculate_correlations.py` (the correlation passes, the memoizing
cache and the top-K ranking step).

Modelling conventions:
* a pandas time series is a `List (Nat × Option ℚ)`: an ordered sequence of
  (timestamp, value) pairs where `Option.none` stands for a missing value
  (`NaN`); a detrended, NaN-free series is a `List (Nat × ℚ)`;
* a Python `dict` is an association list (`dictFind` / `dictInsert` below
  reproduce lookup and insertion-order-preserving assignment);
* a pandas float that may be `NaN` is a `PFloat`;
* external collaborators (the on-disk parquet store, the yfinance download,
  the ClickHouse warehouse) are parameters of the functions that call them.
-/

namespace SecCorr

/-- Lookup in a Python dict modelled as an association list. -/
def dictFind {β : Type} (l : List (String × β)) (k : String) : Option β :=
  match l with
  | [] => Option.none
  | (k', v) :: rest => if k' = k then some v else dictFind rest k

/-- Assignment `d[k] = v` on a Python dict: overwriting an existing key keeps
its original position, a new key is appended at the end. -/
def dictInsert {β : Type} (l : List (String × β)) (k : String) (v : β) :
    List (String × β) :=
  match l with
  | [] => [(k, v)]
  | (k', v') :: rest =>
    if k' = k then (k, v) :: rest else (k', v') :: dictInsert rest k v

theorem dictFind_dictInsert {β : Type} (l : List (String × β)) (k k' : String)
    (v : β) :
    dictFind (dictInsert l k v) k' = if k' = k then some v else dictFind l k' := by
  induction l with
  | nil =>
    by_cases h : k' = k
    · simp [dictInsert, dictFind, h]
    · have h2 : ¬ k = k' := fun he => h he.symm
      simp [dictInsert, dictFind, h, h2]
  | cons p rest ih =>
    obtain ⟨k0, v0⟩ := p
    by_cases h0 : k0 = k
    · subst h0
      by_cases h : k' = k0
      · simp [dictInsert, dictFind, h]
      · have h2 : ¬ k0 = k' := fun he => h he.symm
        simp [dictInsert, dictFind, h, h2]
    · by_cases h : k' = k0
      · subst h
        simp [dictInsert, dictFind, h0]
      · have h2 : ¬ k0 = k' := fun he => h he.symm
        simp [dictInsert, dictFind, h0, h, h2, ih]

/-- A pandas floating value: either `NaN` or a finite value (kept in `ℚ`). -/
inductive PFloat : Type where
  | nan : PFloat
  | val : ℚ → PFloat
deriving DecidableEq

/-! ## scripts/file_reading_funcs.py -/

/-- All full-size contiguous windows of `w` consecutive elements of `l`,
as produced by `series.rolling(w)`. -/
def windowsOf {α : Type} (w : Nat) (l : List α) : List (List α) :=
  (List.range (l.length + 1 - w)).map (fun i => (l.drop i).take w)

/-- Model of `series.rolling(w).apply(f).any()` for a boolean-valued `f`.
pandas semantics: `min_periods` defaults to the window size and counts
non-missing observations, so `f` is only evaluated on windows containing no
`NaN` at all (windows with any missing value yield `NaN` without calling
`f`); `Series.any()` skips `NaN` results.  Hence the whole expression is
true exactly when some full window is NaN-free and satisfies `f`. -/
def rollingApplyAny (w : Nat) (f : List (Option ℚ) → Bool)
    (vals : List (Option ℚ)) : Bool :=
  (windowsOf w vals).any (fun win => win.all (fun v => v.isSome) && f win)

/-- Elementwise numpy comparison `x == y` on possibly-missing values:
any comparison involving `NaN` is false. -/
def numEq : Option ℚ → Option ℚ → Bool
  | some a, some b => a == b
  | _, _ => false

/-- The predicate `np.all(x == x.iloc[0])` applied to one window. -/
def allEqualFirst (win : List (Option ℚ)) : Bool :=
  match win with
  | [] => true
  | h :: t => (h :: t).all (fun v => numEq h v)

/-- The predicate `all(np.isnan(x))` applied to one window. -/
def allIsNaN (win : List (Option ℚ)) : Bool :=
  win.all (fun v => v.isNone)

/-- Embeds `is_series_continuous` (window size 10): the series is rejected
when `series.rolling(10).apply(lambda x: all(np.isnan(x))).any()` holds. -/
def is_series_continuous (vals : List (Option ℚ)) : Bool :=
  ! rollingApplyAny 10 allIsNaN vals

/-- Embeds `is_series_non_repeating` (window size 10): the series is rejected
when `series.rolling(10).apply(lambda x: np.all(x == x.iloc[0])).any()`
holds. -/
def is_series_non_repeating (vals : List (Option ℚ)) : Bool :=
  ! rollingApplyAny 10 allEqualFirst vals

/-- Helper for `pdDiff`: each entry becomes previous-to-current difference,
`NaN` when either side is missing. -/
def pdDiffAux (prev : Option ℚ) : List (Nat × Option ℚ) → List (Nat × Option ℚ)
  | [] => []
  | (t, v) :: rest =>
    (t, match prev, v with
        | some a, some b => some (b - a)
        | _, _ => Option.none) :: pdDiffAux v rest

/-- Embeds `series.diff()`: the first entry becomes `NaN`, entry `i` becomes
`raw[i] - raw[i-1]` (or `NaN` when either operand is missing). -/
def pdDiff : List (Nat × Option ℚ) → List (Nat × Option ℚ)
  | [] => []
  | (t, v) :: rest => (t, Option.none) :: pdDiffAux v rest

/-- Embeds `series.dropna()`: keeps only the entries with a present value. -/
def dropna (l : List (Nat × Option ℚ)) : List (Nat × ℚ) :=
  l.filterMap (fun p => p.2.map (fun q => (p.1, q)))

/-- The validation-and-detrending tail of `get_validated_security_data`, given
the raw series the store returned: the continuity check, the non-repetition
check, then `security_data.diff().dropna()`. -/
def validateAndDetrend (raw : List (Nat × Option ℚ)) :
    Option (List (Nat × ℚ)) :=
  if is_series_continuous (raw.map Prod.snd) = false then Option.none
  else if is_series_non_repeating (raw.map Prod.snd) = false then Option.none
  else some (dropna (pdDiff raw))

/-- Embeds `read_series_data`: dispatch on the source string.  The per-source
frame handling (parquet read, Date index, Adj Close extraction and the
`series_is_empty` screen) happens on external on-disk data and is abstracted
as `fileStore`, which returns the resulting value series or `none` when the
file is missing or degenerate.  An unrecognized source raises `ValueError`. -/
def read_series_data
    (fileStore : String → String → Option (List (Nat × Option ℚ)))
    (symbol source : String) :
    Except String (Option (List (Nat × Option ℚ))) :=
  if source = "yahoo" then Except.ok (fileStore symbol "yahoo")
  else if source = "alpaca" then Except.ok (fileStore symbol "alpaca")
  else Except.error ("Unknown source: " ++ source)

/-- Embeds `get_validated_security_data` of `file_reading_funcs.py`.
`download` models `download_yfin_data` (which catches every exception and
returns an empty frame, hence is total); `chStore` models
`get_data_from_ch_stock_data`; `fileStore` as in `read_series_data`.
The commented-out date-range check of the source is omitted as in the code. -/
def get_validated_security_data
    (download : String → List (Nat × Option ℚ))
    (chStore : String → String → Option (List (Nat × Option ℚ)))
    (fileStore : String → String → Option (List (Nat × Option ℚ)))
    (symbol start_date : String) (_end_date : String) (source : String)
    (dl_data use_ch : Bool) :
    Except String (Option (List (Nat × ℚ))) := do
  let raw? ←
    if dl_data then Except.ok (some (download symbol))
    else if use_ch then Except.ok (chStore symbol start_date)
    else read_series_data fileStore symbol source
  match raw? with
  | Option.none => Except.ok Option.none
  | some raw => Except.ok (validateAndDetrend raw)

/-! ## scripts/calculate_correlations.py : correlation of two prepared series -/

/-- Arithmetic mean of a value sequence. -/
def pmean (xs : List ℚ) : ℚ := xs.sum / xs.length

/-- Sum of squared deviations from the mean (the Pearson variance
numerator). -/
def varSum (xs : List ℚ) : ℚ := (xs.map (fun x => (x - pmean xs) ^ 2)).sum

/-- Sum of products of paired deviations (the Pearson covariance
numerator). -/
def covSum (xs ys : List ℚ) : ℚ :=
  ((xs.zip ys).map (fun p => (p.1 - pmean xs) * (p.2 - pmean ys))).sum

/-- Embeds `compute_correlation`, i.e. `series_data1.corr(series_data2)`.
pandas returns `NaN` exactly when fewer than 2 paired observations remain or
an aligned sequence has zero variance; prepared series are NaN-free here, so
those are the only degenerate cases.  Because the Pearson coefficient
`cov / sqrt(varX * varY)` is irrational in general, the finite value is
encoded by its order-preserving signed square
`cov * |cov| / (varX * varY)`, which keeps the embedding inside `ℚ`;
no claim depends on the magnitude of a finite correlation, only on
definedness and on value order. -/
def compute_correlation (xs ys : List ℚ) : PFloat :=
  if xs.length < 2 ∨ ys.length < 2 ∨ varSum xs = 0 ∨ varSum ys = 0 then
    PFloat.nan
  else PFloat.val (covSum xs ys * |covSum xs ys| / (varSum xs * varSum ys))

/-- Embeds the `align(..., join='inner', axis=0)` step of
`get_correlation_for_series`: with strictly increasing, duplicate-free
timestamps (the TimeSeries invariant) the inner join keeps, on each side and
in order, exactly the entries whose timestamp occurs on the other side. -/
def alignInner (a b : List (Nat × ℚ)) : List ℚ × List ℚ :=
  ((a.filter (fun p => b.any (fun q => q.1 == p.1))).map Prod.snd,
   (b.filter (fun p => a.any (fun q => q.1 == p.1))).map Prod.snd)

/-- Embeds `get_correlation_for_series`: inner-join alignment followed by
`compute_correlation` on the aligned value sequences. -/
def get_correlation_for_series (main cand : List (Nat × ℚ)) : PFloat :=
  compute_correlation (alignInner main cand).1 (alignInner main cand).2

/-! ## scripts/calculate_correlations.py : the three correlation passes -/

/-- The variant tag of a main-security object.  Modelled from the spec: the
classes `Security`, `FredmdSeries` and `FredapiSeries` live in
`scripts/correlation_constants.py` (absent from `src/`); per the spec they
are distinct duck-typed variants, so `isinstance(x, Security)` holds exactly
for the plain `Security` variant. -/
inductive SecKind : Type where
  | security : SecKind
  | fredmd : SecKind
  | fredapi : SecKind
deriving DecidableEq

/-- A main security as used by the correlation passes: its variant tag, its
identity, its prepared (detrended) series per window, and its transient
window-keyed correlation map. -/
structure MainSec : Type where
  kind : SecKind
  symbol : String
  series_data_detrended : String → List (Nat × ℚ)
  all_correlations : List (String × List (String × PFloat))

/-- Lookup in a nested `all_correlations[window][symbol]` map. -/
def alLookup (al : List (String × List (String × PFloat))) (w s : String) :
    Option PFloat :=
  (dictFind al w).bind (fun d => dictFind d s)

/-- Embeds the recording step
`if start_date not in all_correlations: all_correlations[start_date] = {}`
followed by `all_correlations[start_date][symbol] = corr`. -/
def alInsert (al : List (String × List (String × PFloat))) (w s : String)
    (c : PFloat) : List (String × List (String × PFloat)) :=
  dictInsert al w (dictInsert ((dictFind al w).getD []) s c)

/-- Embeds the self-comparison guard
`isinstance(main_security, Security) and symbol == main_security.symbol`. -/
def skipSelf (m : MainSec) (s : String) : Bool :=
  (m.kind == SecKind.security) && (s == m.symbol)

/-- Record one correlation value into a main security. -/
def insCorr (w s : String) (c : PFloat) (m : MainSec) : MainSec :=
  { m with all_correlations := alInsert m.all_correlations w s c }

/-- The per-(symbol, main) body shared by all three passes: skip on
self-comparison, otherwise correlate the prepared candidate series against
`series_data_detrended[start_date]` and record the result (pandas `corr`
never returns Python `None`, so the recording guards of the source never
skip). -/
def updMain (w s : String) (d : List (Nat × ℚ)) (m : MainSec) : MainSec :=
  if skipSelf m s then m
  else insCorr w s (get_correlation_for_series (m.series_data_detrended w) d) m

/-- One candidate symbol processed against every main security.  A symbol
whose preparation yields no result (Python `None`, or the caught
`AttributeError` / per-pair `TypeError` of the source, all of which leave
every map untouched) contributes nothing. -/
def stepSymbol (prepare : String → Option (List (Nat × ℚ))) (w : String)
    (mains : List MainSec) (s : String) : List MainSec :=
  match prepare s with
  | Option.none => mains
  | some d => mains.map (updMain w s d)

/-- Embeds `define_correlations_for_series_list` (the sequential pass):
`original_get_validated_security_data` is abstracted as `prepare`, and the
iteration over `set(self.symbols)` is modelled as a fold over
`symbols.dedup` (the hash order of a Python set is arbitrary; order
independence of the result is proved, not assumed). -/
def define_correlations_for_series_list
    (prepare : String → Option (List (Nat × ℚ))) (w : String)
    (mains : List MainSec) (symbols : List String) : List MainSec :=
  (symbols.dedup).foldl (stepSymbol prepare w) mains

/-- Embeds the static method `CorrelationCalculator.get_validated_security_data`:
cache hit returns the stored series, cache miss invokes the preparer and
stores the result only when it is not `None`.  Returns the resolved data and
the resulting cache. -/
def cachedGet (prepare : String → Option (List (Nat × ℚ)))
    (cache : List (String × List (Nat × ℚ))) (s : String) :
    Option (List (Nat × ℚ)) × List (String × List (Nat × ℚ)) :=
  match dictFind cache s with
  | some d => (some d, cache)
  | Option.none =>
    match prepare s with
    | some d => (some d, dictInsert cache s d)
    | Option.none => (Option.none, cache)

/-- The result tuples `(main_security, symbol, correlation)` built by
`process_symbol`, with the main security identified by its index in the
caller's list. -/
def process_symbol_aux (w s : String) (d : List (Nat × ℚ)) :
    List MainSec → Nat → List (Nat × String × PFloat)
  | [], _ => []
  | m :: rest, i =>
    if skipSelf m s then process_symbol_aux w s d rest (i + 1)
    else (i, s, get_correlation_for_series (m.series_data_detrended w) d) ::
      process_symbol_aux w s d rest (i + 1)

/-- Embeds `process_symbol` on the fragment where preparation completes:
resolve the candidate through the cache, return no tuples when preparation
yields nothing, otherwise one tuple per non-skipped main security (the
`corr_float is not None` guard never skips, since pandas `corr` returns a
float).  Unlike the sequential pass and the thread worker, the source
catches no exception here; a preparation that raises is modelled by
`process_symbolE` below. -/
def process_symbol (prepare : String → Option (List (Nat × ℚ)))
    (cache : List (String × List (Nat × ℚ))) (w : String)
    (mains : List MainSec) (s : String) :
    List (Nat × String × PFloat) × List (String × List (Nat × ℚ)) :=
  match cachedGet prepare cache s with
  | (Option.none, c') => ([], c')
  | (some d, c') => (process_symbol_aux w s d mains 0, c')

/-- The pool results `all_results = pool.map(process_symbol, args)`, one
tuple list per candidate symbol.  The cache is threaded through the worker
tasks; this models one admissible pool execution (workers that fork the
cache independently resolve identically whenever the cache agrees with the
preparer, which the equivalence theorem assumes). -/
def mpCollect (prepare : String → Option (List (Nat × ℚ))) (w : String)
    (mains : List MainSec) :
    List (String × List (Nat × ℚ)) → List String →
      List (List (Nat × String × PFloat))
  | _, [] => []
  | cache, s :: rest =>
    (process_symbol prepare cache w mains s).1 ::
      mpCollect prepare w mains (process_symbol prepare cache w mains s).2 rest

/-- Replace the element at one index of a list. -/
def listModify {α : Type} : List α → Nat → (α → α) → List α
  | [], _, _ => []
  | x :: rest, 0, f => f x :: rest
  | x :: rest, Nat.succ i, f => x :: listModify rest i f

/-- One merge write
`main_security.all_correlations[start_date][symbol] = correlation_float`. -/
def writeTriple (w : String) (ms : List MainSec) (t : Nat × String × PFloat) :
    List MainSec :=
  listModify ms t.1 (insCorr w t.2.1 t.2.2)

/-- Embeds `define_correlations_for_series_list_multiprocessing`: fan the
symbol list (not deduplicated in the source) across workers, then merge all
returned tuples into the main securities.  Cross-process object identity is
modelled per the spec's merge description: a returned tuple addresses the
caller's main security (by index here). -/
def define_correlations_for_series_list_multiprocessing
    (prepare : String → Option (List (Nat × ℚ)))
    (cache : List (String × List (Nat × ℚ))) (w : String)
    (mains : List MainSec) (symbols : List String) : List MainSec :=
  (mpCollect prepare w mains cache symbols).foldl
    (fun ms res => res.foldl (writeTriple w) ms) mains

/-- The serialized idealization of
`define_correlations_for_series_list_multithread`: each `worker` performs
the same per-symbol update as the sequential pass on the shared main
securities, and here every per-symbol effect is applied atomically in an
arbitrary scheduling order `order` of `set(self.symbols)`.  The source does
NOT guarantee this idealization: the worker body interleaves at the
granularity of single interpreter steps, and its unsynchronized
check-then-initialize on the shared `all_correlations` dict can lose
concurrent writes; the faithful interleaved model is `threadStep` /
`runThreads` below.  This fold is the race-free over-approximation used
where the recorded content is provably insensitive to it (a pre-existing
entry can never be destroyed by the re-initialization, which only fires
when the window key is absent). -/
def define_correlations_for_series_list_multithread
    (prepare : String → Option (List (Nat × ℚ))) (w : String)
    (mains : List MainSec) (order : List String) : List MainSec :=
  order.foldl (stepSymbol prepare w) mains

/-- Observable content of a pass result: the correlation recorded for main
security number `i`, window `w'`, candidate `s`. -/
def runLookup (ms : List MainSec) (i : Nat) (w' s : String) : Option PFloat :=
  match ms[i]? with
  | Option.none => Option.none
  | some m => alLookup m.all_correlations w' s

/-! ## scripts/calculate_correlations.py : define_top_correlations -/

/-- A main security as seen by the ranking step: the window-keyed raw
correlation map (whose value the source sets to Python `None` after
ranking, hence the inner `Option`), and the two ranked lists, each entry a
correlated security `(symbol, correlation)`. -/
structure RankedSec : Type where
  symbol : String
  all_correlations : List (String × Option (List (String × ℚ)))
  positive_correlations : List (String × List (String × ℚ))
  negative_correlations : List (String × List (String × ℚ))
deriving DecidableEq

/-- Value lookup `correlation_dict[s]` (total, the ranking step only looks
up keys of the dict). -/
def dget (d : List (String × ℚ)) (s : String) : ℚ := (dictFind d s).getD 0

/-- Embeds `all_correlations.get(start_date, {})`: a missing window yields
the empty dict, a present window yields its stored value, which may be the
`None` left by a previous ranking. -/
def acGet (ac : List (String × Option (List (String × ℚ)))) (w : String) :
    Option (List (String × ℚ)) :=
  match dictFind ac w with
  | Option.none => some []
  | some v => v

/-- The entries appended to `positive_correlations[start_date]`: the dict
keys sorted descending by their correlation value (Python `sorted` with a
value key is a stable comparison sort, observably equal to the stable
`insertionSort` used here), truncated to `num_symbols = 100`, each wrapped
as a correlated security carrying its value. -/
def posEntriesOf (correlation_dict : List (String × ℚ)) : List (String × ℚ) :=
  (((correlation_dict.map Prod.fst).insertionSort
      (fun a b => dget correlation_dict b ≤ dget correlation_dict a)).take 100).map
    (fun s => (s, dget correlation_dict s))

/-- The entries appended to `negative_correlations[start_date]`: as
`posEntriesOf`, sorted ascending. -/
def negEntriesOf (correlation_dict : List (String × ℚ)) : List (String × ℚ) :=
  (((correlation_dict.map Prod.fst).insertionSort
      (fun a b => dget correlation_dict a ≤ dget correlation_dict b)).take 100).map
    (fun s => (s, dget correlation_dict s))

/-- The body of `define_top_correlations` for one main security and one
window: take the window's correlation dict (skip the window when it is
empty), append the ranked top-100 entries to the two ranked lists, then set
`all_correlations[start_date]` to `None`.  Reading a window whose map was
already replaced by `None` raises `TypeError` (`len(None)`). -/
def rankWindow (m : RankedSec) (w : String) : Except String RankedSec :=
  match acGet m.all_correlations w with
  | Option.none => Except.error "TypeError: object of type NoneType has no len"
  | some correlation_dict =>
    if correlation_dict.length = 0 then Except.ok m
    else
      Except.ok { m with
        positive_correlations :=
          dictInsert m.positive_correlations w
            (((dictFind m.positive_correlations w).getD []) ++
              posEntriesOf correlation_dict),
        negative_correlations :=
          dictInsert m.negative_correlations w
            (((dictFind m.negative_correlations w).getD []) ++
              negEntriesOf correlation_dict),
        all_correlations := dictInsert m.all_correlations w Option.none }

/-- The per-main-security loop of `define_top_correlations` over every
window in `start_years`. -/
def rankMain (start_years : List String) (m : RankedSec) :
    Except String RankedSec :=
  start_years.foldlM rankWindow m

/-- Embeds `define_top_correlations` over all main securities; `start_years`
(defined in `scripts/correlation_constants.py`, absent from `src/`) is a
parameter. -/
def define_top_correlations (start_years : List String)
    (mains : List RankedSec) : Except String (List RankedSec) :=
  mains.mapM (rankMain start_years)

/-- The ranked image of one main security (projection used to state the
ranking theorem without an existential). -/
def rankedOf (start_years : List String) (m : RankedSec) : RankedSec :=
  match define_top_correlations start_years [m] with
  | Except.ok [m'] => m'
  | _ => m

/-! ## Lemmas: the recording step -/

theorem alLookup_alInsert (al : List (String × List (String × PFloat)))
    (w s w' s' : String) (c : PFloat) :
    alLookup (alInsert al w s c) w' s' =
      if w' = w ∧ s' = s then some c else alLookup al w' s' := by
  unfold alLookup alInsert
  rw [dictFind_dictInsert]
  by_cases hw : w' = w
  · subst hw
    rw [if_pos rfl]
    by_cases hs : s' = s
    · subst hs
      rw [if_pos ⟨rfl, rfl⟩]
      simp [dictFind_dictInsert]
    · have hc : ¬ (w' = w' ∧ s' = s) := fun hx => hs hx.2
      rw [if_neg hc]
      simp only [Option.some_bind, dictFind_dictInsert, if_neg hs]
      cases h : dictFind al w' <;> simp [h, dictFind]
  · have hc : ¬ (w' = w ∧ s' = s) := fun hx => hw hx.1
    rw [if_neg hw, if_neg hc]

theorem updMain_kind (w s : String) (d : List (Nat × ℚ)) (m : MainSec) :
    (updMain w s d m).kind = m.kind := by
  unfold updMain; split <;> rfl

theorem updMain_symbol (w s : String) (d : List (Nat × ℚ)) (m : MainSec) :
    (updMain w s d m).symbol = m.symbol := by
  unfold updMain; split <;> rfl

theorem updMain_series (w s : String) (d : List (Nat × ℚ)) (m : MainSec) :
    (updMain w s d m).series_data_detrended = m.series_data_detrended := by
  unfold updMain; split <;> rfl

theorem skipSelf_updMain (w s s' : String) (d : List (Nat × ℚ)) (m : MainSec) :
    skipSelf (updMain w s d m) s' = skipSelf m s' := by
  unfold skipSelf
  rw [updMain_kind, updMain_symbol]

theorem alLookup_updMain (w s w' s' : String) (d : List (Nat × ℚ))
    (m : MainSec) :
    alLookup (updMain w s d m).all_correlations w' s' =
      if skipSelf m s = false ∧ w' = w ∧ s' = s then
        some (get_correlation_for_series (m.series_data_detrended w) d)
      else alLookup m.all_correlations w' s' := by
  unfold updMain
  by_cases hk : skipSelf m s
  · simp [hk]
  · simp only [hk, if_false, Bool.false_eq_true, insCorr]
    rw [alLookup_alInsert]
    simp [eq_false hk]

/-! ## Lemmas: characterization of a fold of per-symbol steps -/

theorem getElem?_stepSymbol (prepare : String → Option (List (Nat × ℚ)))
    (w : String) (mains : List MainSec) (s : String) (i : Nat) :
    (stepSymbol prepare w mains s)[i]? =
      match prepare s with
      | Option.none => mains[i]?
      | some d => mains[i]?.map (updMain w s d) := by
  unfold stepSymbol
  cases prepare s <;> simp

theorem runLookup_foldl (prepare : String → Option (List (Nat × ℚ)))
    (w : String) (order : List String) :
    ∀ (mains : List MainSec) (i : Nat) (w' s : String),
      runLookup (order.foldl (stepSymbol prepare w) mains) i w' s =
        match mains[i]?, prepare s with
        | some m, some d =>
          if s ∈ order ∧ skipSelf m s = false ∧ w' = w then
            some (get_correlation_for_series (m.series_data_detrended w) d)
          else alLookup m.all_correlations w' s
        | some m, Option.none => alLookup m.all_correlations w' s
        | Option.none, _ => Option.none := by
  induction order with
  | nil =>
    intro mains i w' s
    cases hm : mains[i]? <;> cases hp : prepare s <;>
      simp [runLookup, hm, hp]
  | cons o rest ih =>
    intro mains i w' s
    have hfold : (o :: rest).foldl (stepSymbol prepare w) mains =
        rest.foldl (stepSymbol prepare w) (stepSymbol prepare w mains o) := rfl
    rw [hfold, ih, getElem?_stepSymbol]
    cases hm : mains[i]? with
    | none =>
      cases hpo : prepare o <;> cases hps : prepare s <;> simp
    | some m =>
      cases hpo : prepare o with
      | none =>
        cases hps : prepare s with
        | none => simp
        | some d =>
          have hso : s ≠ o := by
            intro he; rw [he, hpo] at hps; exact Option.noConfusion hps
          simp [List.mem_cons, hso]
      | some d0 =>
        cases hps : prepare s with
        | none =>
          simp only [Option.map_some']
          rw [alLookup_updMain]
          have hso : s ≠ o := by
            intro he; rw [he, hpo] at hps; exact Option.noConfusion hps
          have h3 : ¬ (skipSelf m o = false ∧ w' = w ∧ s = o) := by
            intro hx; exact hso hx.2.2
          rw [if_neg h3]
        | some d =>
          simp only [Option.map_some', skipSelf_updMain, updMain_series]
          rw [alLookup_updMain]
          by_cases hrest : s ∈ rest ∧ skipSelf m s = false ∧ w' = w
          · rw [if_pos hrest]
            have hall : s ∈ o :: rest ∧ skipSelf m s = false ∧ w' = w :=
              ⟨List.mem_cons_of_mem o hrest.1, hrest.2.1, hrest.2.2⟩
            rw [if_pos hall]
          · rw [if_neg hrest]
            by_cases hso : s = o
            · subst hso
              have hd : d0 = d := by
                rw [hpo] at hps; exact (Option.some.inj hps)
              subst hd
              by_cases hcond : skipSelf m s = false ∧ w' = w
              · have hall : s ∈ s :: rest ∧ skipSelf m s = false ∧ w' = w :=
                  ⟨List.mem_cons_self s rest, hcond.1, hcond.2⟩
                have h3 : skipSelf m s = false ∧ w' = w ∧ s = s :=
                  ⟨hcond.1, hcond.2, rfl⟩
                rw [if_pos h3, if_pos hall]
              · have h2 : ¬ (s ∈ s :: rest ∧ skipSelf m s = false ∧ w' = w) := by
                  intro hx; exact hcond ⟨hx.2.1, hx.2.2⟩
                have h3 : ¬ (skipSelf m s = false ∧ w' = w ∧ s = s) := by
                  intro hx; exact hcond ⟨hx.1, hx.2.1⟩
                rw [if_neg h3, if_neg h2]
            · have h2 : ¬ (s ∈ o :: rest ∧ skipSelf m s = false ∧ w' = w) := by
                intro hx
                rcases List.mem_cons.mp hx.1 with h | h
                · exact hso h
                · exact hrest ⟨h, hx.2.1, hx.2.2⟩
              have h3 : ¬ (skipSelf m o = false ∧ w' = w ∧ s = o) := by
                intro hx; exact hso hx.2.2
              rw [if_neg h3, if_neg h2]

/-! ## Lemmas: the cache and the multiprocessing merge -/

/-- The cache agrees with the preparer on every stored entry (true of a
fresh cache and preserved by populate-on-miss). -/
def cacheConsistent (prepare : String → Option (List (Nat × ℚ)))
    (cache : List (String × List (Nat × ℚ))) : Prop :=
  ∀ s d, dictFind cache s = some d → prepare s = some d

theorem cachedGet_fst (prepare : String → Option (List (Nat × ℚ)))
    (cache : List (String × List (Nat × ℚ))) (s : String)
    (h : cacheConsistent prepare cache) :
    (cachedGet prepare cache s).1 = prepare s := by
  unfold cachedGet
  cases hc : dictFind cache s with
  | none => cases hp : prepare s <;> simp
  | some d => simpa using (h s d hc).symm

theorem cachedGet_consistent (prepare : String → Option (List (Nat × ℚ)))
    (cache : List (String × List (Nat × ℚ))) (s : String)
    (h : cacheConsistent prepare cache) :
    cacheConsistent prepare (cachedGet prepare cache s).2 := by
  unfold cachedGet
  cases hc : dictFind cache s with
  | none =>
    cases hp : prepare s with
    | none => exact h
    | some d =>
      intro s' d' hd'
      rw [dictFind_dictInsert] at hd'
      by_cases hs : s' = s
      · rw [if_pos hs] at hd'
        rw [hs, hp]
        exact congrArg some (Option.some.inj hd')
      · rw [if_neg hs] at hd'
        exact h s' d' hd'
  | some d => exact h

theorem process_symbol_fst (prepare : String → Option (List (Nat × ℚ)))
    (cache : List (String × List (Nat × ℚ))) (w : String)
    (mains : List MainSec) (s : String) (h : cacheConsistent prepare cache) :
    (process_symbol prepare cache w mains s).1 =
      match prepare s with
      | Option.none => []
      | some d => process_symbol_aux w s d mains 0 := by
  unfold process_symbol
  have h1 : (cachedGet prepare cache s).1 = prepare s :=
    cachedGet_fst prepare cache s h
  cases hg : cachedGet prepare cache s with
  | mk d? c' =>
    rw [hg] at h1
    simp only at h1
    cases d? with
    | none => rw [← h1]
    | some d => rw [← h1]

theorem process_symbol_fst_none (prepare : String → Option (List (Nat × ℚ)))
    (cache : List (String × List (Nat × ℚ))) (w : String)
    (mains : List MainSec) (s : String) (h : cacheConsistent prepare cache)
    (hp : prepare s = Option.none) :
    (process_symbol prepare cache w mains s).1 = [] := by
  have h1 := process_symbol_fst prepare cache w mains s h
  rw [hp] at h1
  exact h1

theorem process_symbol_fst_some (prepare : String → Option (List (Nat × ℚ)))
    (cache : List (String × List (Nat × ℚ))) (w : String)
    (mains : List MainSec) (s : String) (d : List (Nat × ℚ))
    (h : cacheConsistent prepare cache) (hp : prepare s = some d) :
    (process_symbol prepare cache w mains s).1 =
      process_symbol_aux w s d mains 0 := by
  have h1 := process_symbol_fst prepare cache w mains s h
  rw [hp] at h1
  exact h1

theorem process_symbol_snd (prepare : String → Option (List (Nat × ℚ)))
    (cache : List (String × List (Nat × ℚ))) (w : String)
    (mains : List MainSec) (s : String) :
    (process_symbol prepare cache w mains s).2 =
      (cachedGet prepare cache s).2 := by
  unfold process_symbol
  cases hg : cachedGet prepare cache s with
  | mk d? c' => cases d? <;> rfl

theorem process_symbol_aux_map (w s w0 s0 : String) (d d0 : List (Nat × ℚ)) :
    ∀ (mains : List MainSec) (i : Nat),
      process_symbol_aux w s d (mains.map (updMain w0 s0 d0)) i =
        process_symbol_aux w s d mains i := by
  intro mains
  induction mains with
  | nil => intro i; rfl
  | cons m rest ih =>
    intro i
    simp only [List.map_cons, process_symbol_aux, skipSelf_updMain,
      updMain_series, ih]

theorem process_symbol_aux_stepSymbol (prepare : String → Option (List (Nat × ℚ)))
    (w s w0 s0 : String) (d : List (Nat × ℚ)) (mains : List MainSec) (i : Nat) :
    process_symbol_aux w s d (stepSymbol prepare w0 mains s0) i =
      process_symbol_aux w s d mains i := by
  unfold stepSymbol
  cases prepare s0 with
  | none => rfl
  | some d0 => exact process_symbol_aux_map w s w0 s0 d d0 mains i

theorem listModify_append {α : Type} (f : α → α) :
    ∀ (pre : List α) (m : α) (suf : List α),
      listModify (pre ++ m :: suf) pre.length f = pre ++ f m :: suf := by
  intro pre
  induction pre with
  | nil => intro m suf; rfl
  | cons x rest ih =>
    intro m suf
    show x :: listModify (rest ++ m :: suf) rest.length f = x :: (rest ++ f m :: suf)
    rw [ih]

theorem foldl_writeTriple_aux (w s : String) (d : List (Nat × ℚ)) :
    ∀ (suf pre : List MainSec),
      (process_symbol_aux w s d suf pre.length).foldl (writeTriple w)
          (pre ++ suf) =
        pre ++ suf.map (updMain w s d) := by
  intro suf
  induction suf with
  | nil => intro pre; simp [process_symbol_aux]
  | cons m rest ih =>
    intro pre
    have hlen : (pre ++ [m]).length = pre.length + 1 := by simp
    by_cases hk : skipSelf m s
    · have haux : process_symbol_aux w s d (m :: rest) pre.length =
          process_symbol_aux w s d rest (pre.length + 1) := by
        simp [process_symbol_aux, hk]
      have hupd : updMain w s d m = m := by
        unfold updMain; rw [if_pos hk]
      have h2 := ih (pre ++ [m])
      rw [hlen, List.append_assoc pre [m] rest, List.singleton_append] at h2
      rw [haux, h2, List.map_cons, hupd]
      simp
    · have haux : process_symbol_aux w s d (m :: rest) pre.length =
          (pre.length, s, get_correlation_for_series (m.series_data_detrended w) d) ::
            process_symbol_aux w s d rest (pre.length + 1) := by
        simp [process_symbol_aux, hk]
      have hupd : updMain w s d m =
          insCorr w s (get_correlation_for_series (m.series_data_detrended w) d) m := by
        unfold updMain; rw [if_neg hk]
      have hw : writeTriple w (pre ++ m :: rest)
          (pre.length, s, get_correlation_for_series (m.series_data_detrended w) d) =
          pre ++ updMain w s d m :: rest := by
        show listModify (pre ++ m :: rest) pre.length
            (insCorr w s (get_correlation_for_series (m.series_data_detrended w) d)) =
          pre ++ updMain w s d m :: rest
        rw [listModify_append
          (insCorr w s (get_correlation_for_series (m.series_data_detrended w) d))
          pre m rest, hupd]
      rw [haux]
      simp only [List.foldl_cons, hw]
      have h2 := ih (pre ++ [updMain w s d m])
      have hlen2 : (pre ++ [updMain w s d m]).length = pre.length + 1 := by simp
      rw [hlen2, List.append_assoc pre [updMain w s d m] rest,
        List.singleton_append] at h2
      rw [h2, List.map_cons]
      simp

theorem foldl_writeTriple (w s : String) (d : List (Nat × ℚ))
    (mains : List MainSec) :
    (process_symbol_aux w s d mains 0).foldl (writeTriple w) mains =
      mains.map (updMain w s d) := by
  have := foldl_writeTriple_aux w s d mains []
  simpa using this

theorem mp_eq_foldl (prepare : String → Option (List (Nat × ℚ))) (w : String) :
    ∀ (symbols : List String) (cache : List (String × List (Nat × ℚ)))
      (mains0 macc : List MainSec),
      cacheConsistent prepare cache →
      (∀ s d i, process_symbol_aux w s d mains0 i =
        process_symbol_aux w s d macc i) →
      (mpCollect prepare w mains0 cache symbols).foldl
          (fun ms res => res.foldl (writeTriple w) ms) macc =
        symbols.foldl (stepSymbol prepare w) macc := by
  intro symbols
  induction symbols with
  | nil => intro cache mains0 macc _ _; rfl
  | cons s rest ih =>
    intro cache mains0 macc hc hstat
    have hc' : cacheConsistent prepare (process_symbol prepare cache w mains0 s).2 := by
      rw [process_symbol_snd prepare cache w mains0 s]
      exact cachedGet_consistent prepare cache s hc
    unfold mpCollect
    simp only [List.foldl_cons]
    cases hp : prepare s with
    | none =>
      rw [process_symbol_fst_none prepare cache w mains0 s hc hp]
      simp only [List.foldl_nil]
      have hstep : stepSymbol prepare w macc s = macc := by
        unfold stepSymbol; rw [hp]
      rw [hstep]
      exact ih _ mains0 macc hc' hstat
    | some d =>
      rw [process_symbol_fst_some prepare cache w mains0 s d hc hp,
        hstat s d 0, foldl_writeTriple]
      have hstep : stepSymbol prepare w macc s = macc.map (updMain w s d) := by
        unfold stepSymbol; rw [hp]
      rw [← hstep]
      refine ih _ mains0 (stepSymbol prepare w macc s) hc' ?_
      intro s' d' i
      rw [process_symbol_aux_stepSymbol, hstat s' d' i]

theorem mp_run_eq (prepare : String → Option (List (Nat × ℚ)))
    (cache : List (String × List (Nat × ℚ))) (w : String)
    (mains : List MainSec) (symbols : List String)
    (hc : cacheConsistent prepare cache) :
    define_correlations_for_series_list_multiprocessing prepare cache w mains
        symbols =
      symbols.foldl (stepSymbol prepare w) mains := by
  unfold define_correlations_for_series_list_multiprocessing
  exact mp_eq_foldl prepare w symbols cache mains mains hc (fun _ _ _ => rfl)

/-! ## Exception-aware preparation and the multiprocessing pool

`original_get_validated_security_data` has three observable outcomes: it can
return data, return Python `None`, or raise (in the yahoo branch of
`read_series_data`, a parquet carrying a `Date` column turns the frame into
a Series and the subsequent `.columns` access raises `AttributeError`).
The sequential pass and the thread `worker` wrap the call in
`except AttributeError` and treat a `None` result through the caught
per-pair `TypeError`, so for them both failure outcomes collapse to "no
result".  `process_symbol`, the multiprocessing worker, catches nothing: a
raising preparation propagates through `pool.map` and aborts the whole
pass.  `PrepOutcome` keeps the three outcomes apart. -/

/-- Outcome of one call to `original_get_validated_security_data`. -/
inductive PrepOutcome : Type where
  | raises : PrepOutcome
  | noData : PrepOutcome
  | ok : List (Nat × ℚ) → PrepOutcome
deriving DecidableEq

/-- The view of a preparer seen by a caller that catches `AttributeError`
and skips on `None` (the sequential pass and the thread worker): both
failure outcomes become no result. -/
def collapse (p : String → PrepOutcome) : String → Option (List (Nat × ℚ)) :=
  fun s =>
    match p s with
    | PrepOutcome.ok d => some d
    | _ => Option.none

/-- The cache agrees with the exception-aware preparer on every stored
entry. -/
def cacheConsistentE (p : String → PrepOutcome)
    (cache : List (String × List (Nat × ℚ))) : Prop :=
  ∀ s d, dictFind cache s = some d → p s = PrepOutcome.ok d

/-- Whether the preparer raises for this symbol. -/
def prepRaises (p : String → PrepOutcome) (s : String) : Bool :=
  match p s with
  | PrepOutcome.raises => true
  | _ => false

/-- `CorrelationCalculator.get_validated_security_data` over an
exception-aware preparer: the static method has no handler, so a raising
preparation (on a cache miss) propagates; `Except.error` carries the
escaped exception. -/
def cachedGetE (p : String → PrepOutcome)
    (cache : List (String × List (Nat × ℚ))) (s : String) :
    Except Unit (Option (List (Nat × ℚ)) × List (String × List (Nat × ℚ))) :=
  match dictFind cache s with
  | some d => Except.ok (some d, cache)
  | Option.none =>
    match p s with
    | PrepOutcome.raises => Except.error ()
    | PrepOutcome.noData => Except.ok (Option.none, cache)
    | PrepOutcome.ok d => Except.ok (some d, dictInsert cache s d)

/-- `process_symbol` over an exception-aware preparer: no handler, so an
escaped exception propagates to the pool. -/
def process_symbolE (p : String → PrepOutcome)
    (cache : List (String × List (Nat × ℚ))) (w : String)
    (mains : List MainSec) (s : String) :
    Except Unit (List (Nat × String × PFloat) × List (String × List (Nat × ℚ))) :=
  match cachedGetE p cache s with
  | Except.error e => Except.error e
  | Except.ok (Option.none, c') => Except.ok ([], c')
  | Except.ok (some d, c') => Except.ok (process_symbol_aux w s d mains 0, c')

/-- `pool.map(process_symbol, args)` over an exception-aware preparer: an
exception in any worker task aborts the whole map. -/
def mpCollectE (p : String → PrepOutcome) (w : String) (mains : List MainSec) :
    List (String × List (Nat × ℚ)) → List String →
      Except Unit (List (List (Nat × String × PFloat)))
  | _, [] => Except.ok []
  | cache, s :: rest =>
    match process_symbolE p cache w mains s with
    | Except.error e => Except.error e
    | Except.ok (res, c') =>
      match mpCollectE p w mains c' rest with
      | Except.error e => Except.error e
      | Except.ok rs => Except.ok (res :: rs)

/-- `define_correlations_for_series_list_multiprocessing` over an
exception-aware preparer: collect through the pool (aborting if any task
raises), then merge all returned tuples. -/
def mpRunE (p : String → PrepOutcome)
    (cache : List (String × List (Nat × ℚ))) (w : String)
    (mains : List MainSec) (symbols : List String) :
    Except Unit (List MainSec) :=
  match mpCollectE p w mains cache symbols with
  | Except.error e => Except.error e
  | Except.ok Ls =>
    Except.ok (Ls.foldl (fun ms res => res.foldl (writeTriple w) ms) mains)

/-! ## The thread pass at interpreter-step granularity

The thread `worker` mutates the shared main securities through three
separately scheduled interpreter steps per (main, symbol):
read `start_date not in all_correlations` (line 208), conditionally assign
`all_correlations[start_date] = {}` (line 209) with the truth value read
before, and the keyed write
`all_correlations[start_date][symbol] = correlation_float` (line 211).
Two workers that both read the window as absent will both install a fresh
dict, and the later installation erases the earlier worker's recorded
entries: the lost-update race the spec flags.  The model below makes each
of these steps one atomic action and lets a scheduler interleave them. -/

/-- The program counter of one per-main task of a worker: about to read the
membership check, about to run the conditional initialization (carrying the
truth value the check read), or about to perform the keyed write. -/
inductive TaskPhase : Type where
  | toCheck : TaskPhase
  | toInit : Bool → TaskPhase
  | toWrite : TaskPhase
deriving DecidableEq

/-- One pending per-main task of a worker thread: the index of the main
security, the candidate symbol, the correlation value to record (computed
from the static fields, which no concurrent write touches), and the
program counter. -/
structure ThreadTask : Type where
  idx : Nat
  sym : String
  corr : PFloat
  phase : TaskPhase
deriving DecidableEq

/-- The task list of the worker for one candidate symbol: no tasks when
preparation yields no result (the worker returns before touching shared
state), otherwise one task per non-skipped main security. -/
def workerTasks (prepare : String → Option (List (Nat × ℚ))) (w : String)
    (mains : List MainSec) (s : String) : List ThreadTask :=
  match prepare s with
  | Option.none => []
  | some d =>
    (process_symbol_aux w s d mains 0).map
      (fun t => ⟨t.1, t.2.1, t.2.2, TaskPhase.toCheck⟩)

/-- Install a fresh empty dict for the window, as the assignment on line
209 of the source does. -/
def initWindow (w : String) (m : MainSec) : MainSec :=
  { m with all_correlations := dictInsert m.all_correlations w [] }

/-- One atomic interpreter step of a worker thread (its first pending
task): the membership check records whether the window key is absent; the
conditional initialization installs a fresh empty dict when the recorded
check saw the key absent, even if another thread has written entries since;
the keyed write records the correlation. -/
def threadStep (w : String) (mains : List MainSec) :
    List ThreadTask → List MainSec × List ThreadTask
  | [] => (mains, [])
  | t :: rest =>
    match t.phase with
    | TaskPhase.toCheck =>
      let absent := (match mains[t.idx]? with
        | Option.none => false
        | some m => (dictFind m.all_correlations w).isNone)
      (mains, { t with phase := TaskPhase.toInit absent } :: rest)
    | TaskPhase.toInit absent =>
      let mains' := (if absent then
        listModify mains t.idx (initWindow w)
      else mains)
      (mains', { t with phase := TaskPhase.toWrite } :: rest)
    | TaskPhase.toWrite =>
      let mains' := listModify mains t.idx (insCorr w t.sym t.corr)
      (mains', rest)

/-- Run the worker threads under a schedule: at each scheduler tick the
named thread performs its next atomic step on the shared main securities.
Returns the shared state and the residual task lists (a complete execution
leaves every residual list empty). -/
def runThreads (w : String) :
    List Nat → List (List ThreadTask) → List MainSec →
      List MainSec × List (List ThreadTask)
  | [], threads, mains => (mains, threads)
  | tid :: sched, threads, mains =>
    match threads[tid]? with
    | Option.none => runThreads w sched threads mains
    | some tasks =>
      runThreads w sched (threads.set tid (threadStep w mains tasks).2)
        (threadStep w mains tasks).1

/-- The thread pass at interpreter-step granularity: spawn one worker per
candidate symbol of `set(self.symbols)` and interleave their atomic steps
according to `sched`. -/
def multithread_interleaved
    (prepare : String → Option (List (Nat × ℚ))) (w : String)
    (mains : List MainSec) (order : List String) (sched : List Nat) :
    List MainSec × List (List ThreadTask) :=
  runThreads w sched (order.map (workerTasks prepare w mains)) mains

/-! ## Lemmas: the exception-aware pool -/

theorem cachedGetE_raises (p : String → PrepOutcome)
    (cache : List (String × List (Nat × ℚ))) (s : String)
    (hc : cacheConsistentE p cache) (hp : p s = PrepOutcome.raises) :
    cachedGetE p cache s = Except.error () := by
  unfold cachedGetE
  cases hd : dictFind cache s with
  | some d =>
    have hps := hc s d hd
    rw [hp] at hps
    exact PrepOutcome.noConfusion hps
  | none => rw [hp]

theorem cachedGetE_not_raises (p : String → PrepOutcome)
    (cache : List (String × List (Nat × ℚ))) (s : String)
    (hc : cacheConsistentE p cache) (hnr : ¬ p s = PrepOutcome.raises) :
    ∃ c', cachedGetE p cache s = Except.ok (collapse p s, c')
      ∧ cacheConsistentE p c' := by
  unfold cachedGetE
  cases hd : dictFind cache s with
  | some d =>
    have hps := hc s d hd
    have hcoll : collapse p s = some d := by
      unfold collapse; rw [hps]
    exact ⟨cache, by rw [hcoll], hc⟩
  | none =>
    cases hps : p s with
    | raises => exact absurd hps hnr
    | noData =>
      have hcoll : collapse p s = Option.none := by
        unfold collapse; rw [hps]
      exact ⟨cache, by rw [hcoll], hc⟩
    | ok d =>
      have hcoll : collapse p s = some d := by
        unfold collapse; rw [hps]
      refine ⟨dictInsert cache s d, by rw [hcoll], ?_⟩
      intro s' d' hd'
      rw [dictFind_dictInsert] at hd'
      by_cases hss : s' = s
      · rw [if_pos hss] at hd'
        rw [hss, hps]
        exact congrArg PrepOutcome.ok (Option.some.inj hd')
      · rw [if_neg hss] at hd'
        exact hc s' d' hd'

theorem process_symbolE_raises (p : String → PrepOutcome)
    (cache : List (String × List (Nat × ℚ))) (w : String)
    (mains : List MainSec) (s : String)
    (hc : cacheConsistentE p cache) (hp : p s = PrepOutcome.raises) :
    process_symbolE p cache w mains s = Except.error () := by
  unfold process_symbolE
  rw [cachedGetE_raises p cache s hc hp]

theorem process_symbolE_not_raises (p : String → PrepOutcome)
    (cache : List (String × List (Nat × ℚ))) (w : String)
    (mains : List MainSec) (s : String)
    (hc : cacheConsistentE p cache) (hnr : ¬ p s = PrepOutcome.raises) :
    ∃ c', process_symbolE p cache w mains s =
        Except.ok ((match collapse p s with
          | Option.none => []
          | some d => process_symbol_aux w s d mains 0), c')
      ∧ cacheConsistentE p c' := by
  obtain ⟨c', hcg, hc'⟩ := cachedGetE_not_raises p cache s hc hnr
  refine ⟨c', ?_, hc'⟩
  unfold process_symbolE
  rw [hcg]
  cases collapse p s <;> rfl

theorem mpRunE_foldl (p : String → PrepOutcome) (w : String) :
    ∀ (symbols : List String) (cache : List (String × List (Nat × ℚ)))
      (mains0 macc : List MainSec),
      cacheConsistentE p cache →
      (∀ s d i, process_symbol_aux w s d mains0 i =
        process_symbol_aux w s d macc i) →
      (match mpCollectE p w mains0 cache symbols with
        | Except.error _ => (Except.error () : Except Unit (List MainSec))
        | Except.ok Ls =>
          Except.ok (Ls.foldl (fun ms res => res.foldl (writeTriple w) ms) macc)) =
      (if symbols.any (prepRaises p) then Except.error ()
       else Except.ok (symbols.foldl (stepSymbol (collapse p) w) macc)) := by
  intro symbols
  induction symbols with
  | nil => intro cache mains0 macc _ _; rfl
  | cons s rest ih =>
    intro cache mains0 macc hc hstat
    by_cases hraise : p s = PrepOutcome.raises
    · have h1 := process_symbolE_raises p cache w mains0 s hc hraise
      have hany : (s :: rest).any (prepRaises p) = true := by
        rw [List.any_cons]
        have : prepRaises p s = true := by
          unfold prepRaises; rw [hraise]
        rw [this, Bool.true_or]
      unfold mpCollectE
      rw [h1, hany, if_pos rfl]
    · have hpr : prepRaises p s = false := by
        unfold prepRaises
        cases hq : p s with
        | raises => exact absurd hq hraise
        | noData => rfl
        | ok d => rfl
      obtain ⟨c', hps, hc'⟩ :=
        process_symbolE_not_raises p cache w mains0 s hc hraise
      have hmacc : (match collapse p s with
          | Option.none => []
          | some d => process_symbol_aux w s d mains0 0).foldl
            (writeTriple w) macc = stepSymbol (collapse p) w macc s := by
        cases hcol : collapse p s with
        | none =>
          unfold stepSymbol; rw [hcol]; rfl
        | some d =>
          unfold stepSymbol
          rw [hcol]
          show (process_symbol_aux w s d mains0 0).foldl (writeTriple w) macc =
            macc.map (updMain w s d)
          rw [hstat s d 0, foldl_writeTriple]
      have hstat' : ∀ s' d' i, process_symbol_aux w s' d' mains0 i =
          process_symbol_aux w s' d' (stepSymbol (collapse p) w macc s) i := by
        intro s' d' i
        rw [process_symbol_aux_stepSymbol, hstat s' d' i]
      have hIH := ih c' mains0 (stepSymbol (collapse p) w macc s) hc' hstat'
      unfold mpCollectE
      simp only [hps]
      rw [List.any_cons, hpr, Bool.false_or]
      cases hrest : mpCollectE p w mains0 c' rest with
      | error e =>
        rw [hrest] at hIH
        exact hIH
      | ok Ls =>
        rw [hrest] at hIH
        simp only [List.foldl_cons]
        rw [hmacc]
        exact hIH

theorem mpRunE_characterize (p : String → PrepOutcome)
    (cache : List (String × List (Nat × ℚ))) (w : String)
    (mains : List MainSec) (symbols : List String)
    (hc : cacheConsistentE p cache) :
    mpRunE p cache w mains symbols =
      if symbols.any (prepRaises p) then Except.error ()
      else Except.ok (symbols.foldl (stepSymbol (collapse p) w) mains) := by
  have h := mpRunE_foldl p w symbols cache mains mains hc (fun _ _ _ => rfl)
  unfold mpRunE
  cases hcol : mpCollectE p w mains cache symbols with
  | error e =>
    rw [hcol] at h
    exact h
  | ok Ls =>
    rw [hcol] at h
    exact h

/-! ## Lemmas: the rolling-window checks -/

theorem length_of_mem_windowsOf {α : Type} (w : Nat) (l : List α)
    (win : List α) (h : win ∈ windowsOf w l) : win.length = w := by
  unfold windowsOf at h
  rw [List.mem_map] at h
  obtain ⟨i, hi, hwin⟩ := h
  rw [List.mem_range] at hi
  rw [← hwin, List.length_take, List.length_drop]
  omega

/-- The continuity check can never fire: a window whose result `Series.any`
would count must contain no missing value (pandas only applies the rolling
function to windows with `min_periods` = 10 non-missing observations) yet
consist entirely of missing values. -/
theorem is_series_continuous_true (vals : List (Option ℚ)) :
    is_series_continuous vals = true := by
  unfold is_series_continuous
  cases hany : rollingApplyAny 10 allIsNaN vals
  · rfl
  · exfalso
    unfold rollingApplyAny at hany
    rw [List.any_eq_true] at hany
    obtain ⟨win, hwin, hw⟩ := hany
    rw [Bool.and_eq_true] at hw
    obtain ⟨hsome, hnan⟩ := hw
    have hlen : win.length = 10 := length_of_mem_windowsOf 10 vals win hwin
    cases win with
    | nil => simp at hlen
    | cons h t =>
      rw [List.all_cons, Bool.and_eq_true] at hsome
      unfold allIsNaN at hnan
      rw [List.all_cons, Bool.and_eq_true] at hnan
      cases h with
      | none => simp at hsome
      | some q => simp at hnan

theorem is_series_non_repeating_false_of_run (vals : List (Option ℚ))
    (i : Nat) (q : ℚ) (hwin : (vals.drop i).take 10 = List.replicate 10 (some q)) :
    is_series_non_repeating vals = false := by
  unfold is_series_non_repeating
  have hany : rollingApplyAny 10 allEqualFirst vals = true := by
    unfold rollingApplyAny
    rw [List.any_eq_true]
    refine ⟨(vals.drop i).take 10, ?_, ?_⟩
    · unfold windowsOf
      rw [List.mem_map]
      refine ⟨i, List.mem_range.mpr ?_, rfl⟩
      have hlen := congrArg List.length hwin
      rw [List.length_take, List.length_replicate, List.length_drop] at hlen
      omega
    · rw [hwin, Bool.and_eq_true]
      constructor
      · rw [List.all_eq_true]
        intro x hx
        rw [List.eq_of_mem_replicate hx]
        rfl
      · unfold allEqualFirst
        show (some q :: List.replicate 9 (some q)).all
            (fun v => numEq (some q) v) = true
        rw [← List.replicate_succ, List.all_eq_true]
        intro x hx
        rw [List.eq_of_mem_replicate hx]
        unfold numEq
        exact beq_self_eq_true q
  rw [hany]
  rfl

theorem is_series_non_repeating_true_of_no_run (vals : List (Option ℚ))
    (hno : ∀ (i : Nat) (q : ℚ),
      (vals.drop i).take 10 ≠ List.replicate 10 (some q)) :
    is_series_non_repeating vals = true := by
  unfold is_series_non_repeating
  cases hany : rollingApplyAny 10 allEqualFirst vals
  · rfl
  · exfalso
    unfold rollingApplyAny at hany
    rw [List.any_eq_true] at hany
    obtain ⟨win, hwinmem, hw⟩ := hany
    rw [Bool.and_eq_true] at hw
    obtain ⟨hsome, heq⟩ := hw
    have hlen : win.length = 10 := length_of_mem_windowsOf 10 vals win hwinmem
    unfold windowsOf at hwinmem
    rw [List.mem_map] at hwinmem
    obtain ⟨i, _, hwin⟩ := hwinmem
    cases hwc : win with
    | nil => rw [hwc] at hlen; simp at hlen
    | cons h t =>
      subst hwc
      have hhead : h.isSome = true := by
        rw [List.all_cons, Bool.and_eq_true] at hsome
        exact hsome.1
      cases h with
      | none => simp at hhead
      | some q =>
        refine hno i q ?_
        rw [hwin]
        rw [List.eq_replicate_iff]
        refine ⟨hlen, ?_⟩
        intro b hb
        unfold allEqualFirst at heq
        rw [List.all_eq_true] at heq
        have hbeq := heq b hb
        cases b with
        | none => exact absurd hbeq (by simp [numEq])
        | some qb =>
          unfold numEq at hbeq
          rw [beq_iff_eq] at hbeq
          rw [hbeq]

/-! ## Lemmas: detrending -/

/-- A NaN-free raw series. -/
def toRaw (l : List (Nat × ℚ)) : List (Nat × Option ℚ) :=
  l.map (fun p => (p.1, some p.2))

/-- The first difference stated by the spec: entry `i` of the output is
`(timestamp of raw entry i+1, raw[i+1] - raw[i])`. -/
def diffPure (l : List (Nat × ℚ)) : List (Nat × ℚ) :=
  (l.zip l.tail).map (fun pq => (pq.2.1, pq.2.2 - pq.1.2))

theorem dropna_pdDiffAux (l : List (Nat × ℚ)) :
    ∀ (a : ℚ) (t0 : Nat),
      dropna (pdDiffAux (some a) (toRaw l)) = diffPure ((t0, a) :: l) := by
  induction l with
  | nil => intro a t0; rfl
  | cons p rest ih =>
    intro a t0
    obtain ⟨t, b⟩ := p
    show (t, b - a) :: dropna (pdDiffAux (some b) (toRaw rest)) =
      diffPure ((t0, a) :: (t, b) :: rest)
    rw [ih b t]
    rfl

theorem dropna_pdDiff_toRaw (l : List (Nat × ℚ)) :
    dropna (pdDiff (toRaw l)) = diffPure l := by
  cases l with
  | nil => rfl
  | cons p rest =>
    obtain ⟨t0, a⟩ := p
    show dropna (pdDiffAux (some a) (toRaw rest)) = diffPure ((t0, a) :: rest)
    exact dropna_pdDiffAux rest a t0

theorem diffPure_length (l : List (Nat × ℚ)) :
    (diffPure l).length = l.length - 1 := by
  unfold diffPure
  rw [List.length_map, List.length_zip, List.length_tail]
  omega

theorem diffPure_const (l : List (Nat × ℚ)) (c : ℚ)
    (hc : ∀ p ∈ l, p.2 = c) : ∀ q ∈ diffPure l, q.2 = 0 := by
  intro q hq
  unfold diffPure at hq
  rw [List.mem_map] at hq
  obtain ⟨pq, hpq, hq'⟩ := hq
  have hmem := List.of_mem_zip hpq
  have h1 : pq.1.2 = c := hc pq.1 hmem.1
  have h2 : pq.2.2 = c := hc pq.2 (List.mem_of_mem_tail hmem.2)
  rw [← hq']
  show pq.2.2 - pq.1.2 = 0
  rw [h1, h2, sub_self]

/-! ## Lemmas: ranking -/

theorem posEntriesOf_length (dict : List (String × ℚ)) :
    (posEntriesOf dict).length = min dict.length 100 := by
  unfold posEntriesOf
  rw [List.length_map, List.length_take]
  have hperm := List.perm_insertionSort
    (fun a b => dget dict b ≤ dget dict a) (dict.map Prod.fst)
  rw [hperm.length_eq, List.length_map]
  omega

theorem negEntriesOf_length (dict : List (String × ℚ)) :
    (negEntriesOf dict).length = min dict.length 100 := by
  unfold negEntriesOf
  rw [List.length_map, List.length_take]
  have hperm := List.perm_insertionSort
    (fun a b => dget dict a ≤ dget dict b) (dict.map Prod.fst)
  rw [hperm.length_eq, List.length_map]
  omega

theorem posEntriesOf_sorted (dict : List (String × ℚ)) :
    List.Pairwise (fun a b : String × ℚ => b.2 ≤ a.2) (posEntriesOf dict) := by
  unfold posEntriesOf
  haveI : IsTotal String (fun a b => dget dict b ≤ dget dict a) :=
    ⟨fun a b => le_total (dget dict b) (dget dict a)⟩
  haveI : IsTrans String (fun a b => dget dict b ≤ dget dict a) :=
    ⟨fun a b c hab hbc => le_trans hbc hab⟩
  have hs := List.sorted_insertionSort
    (fun a b => dget dict b ≤ dget dict a) (dict.map Prod.fst)
  have htake := List.Pairwise.sublist (List.take_sublist 100 _) hs
  exact List.Pairwise.map _ (fun a b h => h) htake

theorem negEntriesOf_sorted (dict : List (String × ℚ)) :
    List.Pairwise (fun a b : String × ℚ => a.2 ≤ b.2) (negEntriesOf dict) := by
  unfold negEntriesOf
  haveI : IsTotal String (fun a b => dget dict a ≤ dget dict b) :=
    ⟨fun a b => le_total (dget dict a) (dget dict b)⟩
  haveI : IsTrans String (fun a b => dget dict a ≤ dget dict b) :=
    ⟨fun a b c hab hbc => le_trans hab hbc⟩
  have hs := List.sorted_insertionSort
    (fun a b => dget dict a ≤ dget dict b) (dict.map Prod.fst)
  have htake := List.Pairwise.sublist (List.take_sublist 100 _) hs
  exact List.Pairwise.map _ (fun a b h => h) htake

theorem rankWindow_eq (m : RankedSec) (w : String) (dict : List (String × ℚ))
    (hac : dictFind m.all_correlations w = some (some dict)) (hne : dict ≠ []) :
    rankWindow m w = Except.ok { m with
      positive_correlations := dictInsert m.positive_correlations w
        (((dictFind m.positive_correlations w).getD []) ++ posEntriesOf dict),
      negative_correlations := dictInsert m.negative_correlations w
        (((dictFind m.negative_correlations w).getD []) ++ negEntriesOf dict),
      all_correlations := dictInsert m.all_correlations w Option.none } := by
  have hlen : ¬ (dict.length = 0) := by
    intro h0; exact hne (List.length_eq_zero.mp h0)
  unfold rankWindow acGet
  rw [hac]
  simp only [if_neg hlen]

theorem rankMain_singleton (m : RankedSec) (w : String) :
    rankMain [w] m = rankWindow m w := by
  unfold rankMain
  rw [List.foldlM_cons]
  cases h : rankWindow m w <;> simp [h, List.foldlM_nil]

theorem define_top_correlations_singleton (ws : List String) (m : RankedSec) :
    define_top_correlations ws [m] = (rankMain ws m).map (fun m' => [m']) := by
  unfold define_top_correlations
  rw [List.mapM_cons, List.mapM_nil]
  cases h : rankMain ws m <;> simp [h, Except.map]

theorem rankedOf_eq (ws : List String) (m m' : RankedSec)
    (h : define_top_correlations ws [m] = Except.ok [m']) :
    rankedOf ws m = m' := by
  unfold rankedOf
  rw [h]

/-! ## Claim theorems -/

/-- A plain Security-variant main security used by concrete instances. -/
def mainA : MainSec :=
  { kind := SecKind.security, symbol := "MAIN",
    series_data_detrended := fun _ => [(0, 1), (1, 2)],
    all_correlations := [] }

/-- A preparer that resolves only the candidate symbol AAPL, to a prepared
series overlapping `mainA` in a single timestamp. -/
def prepA : String → Option (List (Nat × ℚ)) :=
  fun s => if s = "AAPL" then some [(1, 7), (2, 9)] else Option.none

/-- C2 (code bug): for a (main, candidate) pair whose inner-join alignment
leaves a single overlapping point, the correlation is undefined (NaN), and
the sequential pass records that NaN as the entry for the pair instead of
skipping it: the guards of the source (`corr_float is not None`, `except
TypeError`) never fire on a NaN float, which pandas `corr` returns for
degenerate alignments. -/
theorem C2_degenerate_pair_recorded_as_nan :
    runLookup (define_correlations_for_series_list prepA "2023" [mainA]
      ["AAPL"]) 0 "2023" "AAPL" = some PFloat.nan := by decide

/-- Raw series whose indices 1..10 form a run of 10 consecutive missing
values. -/
def rawC4 : List (Nat × Option ℚ) :=
  [(0, some 1), (1, Option.none), (2, Option.none), (3, Option.none),
   (4, Option.none), (5, Option.none), (6, Option.none), (7, Option.none),
   (8, Option.none), (9, Option.none), (10, Option.none), (11, some 2)]

/-- C4 (code bug): the continuity check is inert for every series, because
pandas evaluates the rolling predicate only on windows with 10 non-missing
observations while the predicate asks for 10 missing ones; consequently a
series with a run of 10 consecutive missing values is not rejected: the
pipeline returns a (here empty) prepared series instead of no result. -/
theorem C4_continuity_check_inert :
    (∀ vals : List (Option ℚ), is_series_continuous vals = true)
    ∧ validateAndDetrend rawC4 = some [] :=
  ⟨is_series_continuous_true, by decide⟩

/-- C5: a raw series containing a run of 10 consecutive numerically
identical values is rejected by the preparation pipeline (the repetition
check fires), and a series with no run of 10 identical values, in
particular one whose longest run is exactly 9, passes the non-repetition
check. -/
theorem C5_repetition_boundary (raw : List (Nat × Option ℚ)) :
    ((∃ (i : Nat) (q : ℚ),
        ((raw.map Prod.snd).drop i).take 10 = List.replicate 10 (some q)) →
      validateAndDetrend raw = Option.none)
    ∧ ((∀ (i : Nat) (q : ℚ),
        ((raw.map Prod.snd).drop i).take 10 ≠ List.replicate 10 (some q)) →
      is_series_non_repeating (raw.map Prod.snd) = true) := by
  constructor
  · intro hex
    obtain ⟨i, q, hwin⟩ := hex
    have hrep := is_series_non_repeating_false_of_run (raw.map Prod.snd) i q hwin
    simp [validateAndDetrend, is_series_continuous_true, hrep]
  · intro hno
    exact is_series_non_repeating_true_of_no_run _ hno

/-- Ten consecutive identical values. -/
def rawC5 : List (Nat × Option ℚ) :=
  [(0, some 5), (1, some 5), (2, some 5), (3, some 5), (4, some 5),
   (5, some 5), (6, some 5), (7, some 5), (8, some 5), (9, some 5)]

/-- Nine consecutive identical values (the boundary case). -/
def rawC5b : List (Nat × Option ℚ) :=
  [(0, some 5), (1, some 5), (2, some 5), (3, some 5), (4, some 5),
   (5, some 5), (6, some 5), (7, some 5), (8, some 5)]

/-- Witness for C5: the 10-run series is rejected; the 9-run series passes
the non-repetition check. -/
theorem C5_repetition_boundary_witness :
    validateAndDetrend rawC5 = Option.none
    ∧ is_series_non_repeating (rawC5b.map Prod.snd) = true :=
  ⟨(C5_repetition_boundary rawC5).1 ⟨0, 5, by decide⟩,
   (C5_repetition_boundary rawC5b).2 (fun i q h => by
      have hl := congrArg List.length h
      rw [List.length_take, List.length_replicate, List.length_drop] at hl
      have h9 : (rawC5b.map Prod.snd).length = 9 := by decide
      rw [h9] at hl
      omega)⟩

/-- C6 (amended): for a NaN-free raw series that passes validation, the
detrended output is exactly the first difference of the values: its length
is the input length minus one, entry i carries value raw[i+1] - raw[i], and
a constant input series detrends to all zeros. -/
theorem C6_detrending_functional (l : List (Nat × ℚ)) (out : List (Nat × ℚ))
    (h : validateAndDetrend (toRaw l) = some out) :
    out.length = l.length - 1 ∧ out = diffPure l
    ∧ ∀ c : ℚ, (∀ p ∈ l, p.2 = c) → ∀ q ∈ out, q.2 = 0 := by
  have hout : out = dropna (pdDiff (toRaw l)) := by
    unfold validateAndDetrend at h
    have hc : ¬ (is_series_continuous ((toRaw l).map Prod.snd) = false) := by
      rw [is_series_continuous_true]
      exact fun hh => Bool.noConfusion hh
    rw [if_neg hc] at h
    by_cases hrep : is_series_non_repeating ((toRaw l).map Prod.snd) = false
    · rw [if_pos hrep] at h
      exact Option.noConfusion h
    · rw [if_neg hrep] at h
      exact (Option.some.inj h).symm
  rw [hout, dropna_pdDiff_toRaw]
  exact ⟨diffPure_length l, rfl, fun c hc => diffPure_const l c hc⟩

/-- Witness for C6 at a (constant) singleton series: validation succeeds and
the detrended output is empty, of length 1 - 1 = 0, equal to the first
difference, and trivially all zero. -/
theorem C6_detrending_functional_witness :
    ([] : List (Nat × ℚ)).length = [((0 : Nat), (5 : ℚ))].length - 1
    ∧ ([] : List (Nat × ℚ)) = diffPure [((0 : Nat), (5 : ℚ))]
    ∧ ∀ c : ℚ, (∀ p ∈ [((0 : Nat), (5 : ℚ))], p.2 = c) →
        ∀ q ∈ ([] : List (Nat × ℚ)), q.2 = 0 :=
  C6_detrending_functional [(0, 5)] [] (by decide)

/-- C6 counterexample: a raw series of length 3 with an interior missing
value passes validation (no check rejects it) but its detrended output has
length 0, not 3 - 1 = 2: dropping the NaN differences shortens the output
beyond the leading entry. -/
theorem C6_counterexample_nan_series :
    validateAndDetrend [(0, some 1), (1, Option.none), (2, some 2)] = some []
    ∧ ([] : List (Nat × ℚ)).length ≠ 3 - 1 := by decide

/-- C8 (amended): when preparation actually dispatches on the source string
(the download and warehouse flags unset), an unrecognized source identifier
raises ValueError to the caller rather than being skipped like a
per-symbol data failure. -/
theorem C8_unknown_source_fatal
    (download : String → List (Nat × Option ℚ))
    (chStore fileStore : String → String → Option (List (Nat × Option ℚ)))
    (symbol start_date end_date source : String)
    (h1 : source ≠ "yahoo") (h2 : source ≠ "alpaca") :
    get_validated_security_data download chStore fileStore symbol start_date
      end_date source false false =
      Except.error ("Unknown source: " ++ source) := by
  unfold get_validated_security_data read_series_data
  rw [if_neg h1, if_neg h2]
  rfl

/-- Witness for C8 at the warehouse-style source string. -/
theorem C8_unknown_source_fatal_witness :
    get_validated_security_data (fun _ => []) (fun _ _ => Option.none)
      (fun _ _ => Option.none) "SYM" "2021-01-01" "2023-01-01" "warehouse"
      false false = Except.error ("Unknown source: " ++ "warehouse") :=
  C8_unknown_source_fatal (fun _ => []) (fun _ _ => Option.none)
    (fun _ _ => Option.none) "SYM" "2021-01-01" "2023-01-01" "warehouse"
    (by decide) (by decide)

/-- C8 counterexample: with the download flag set, the source string is
never consulted, so a call with an unrecognized source identifier returns
normally instead of failing hard. -/
theorem C8_counterexample_download_ignores_source :
    get_validated_security_data (fun _ => []) (fun _ _ => Option.none)
      (fun _ _ => Option.none) "SYM" "2021-01-01" "2023-01-01" "bogus"
      true false = Except.ok (some []) := rfl

/-- C10: the cache-backed resolver: a hit returns the stored series with
the cache unchanged and a result independent of the preparer (the preparer
is not consulted); a miss whose preparation fails stores nothing and leaves
the cache unchanged, so a later call for the symbol misses again and
re-invokes the preparer; a miss whose preparation succeeds returns the data
and stores exactly that data under the symbol. -/
theorem C10_cache_resolver
    (prepare prepare2 : String → Option (List (Nat × ℚ)))
    (cache : List (String × List (Nat × ℚ))) (s : String) :
    (∀ d, dictFind cache s = some d →
      cachedGet prepare cache s = (some d, cache)
      ∧ cachedGet prepare2 cache s = (some d, cache))
    ∧ (dictFind cache s = Option.none → prepare s = Option.none →
      cachedGet prepare cache s = (Option.none, cache))
    ∧ (∀ d, dictFind cache s = Option.none → prepare s = some d →
      cachedGet prepare cache s = (some d, dictInsert cache s d)) := by
  refine ⟨?_, ?_, ?_⟩
  · intro d hd
    constructor <;> (unfold cachedGet; rw [hd])
  · intro hd hp
    unfold cachedGet
    rw [hd, hp]
  · intro d hd hp
    unfold cachedGet
    rw [hd, hp]

/-- A one-entry cache. -/
def cacheC10 : List (String × List (Nat × ℚ)) := [("AAPL", [(0, 1)])]

/-- A preparer resolving only MSFT. -/
def prepC10 : String → Option (List (Nat × ℚ)) :=
  fun s => if s = "MSFT" then some [(2, 5)] else Option.none

/-- Witness for C10: hit on AAPL (also under a preparer that always fails),
failing miss on GME, successful miss on MSFT. -/
theorem C10_cache_resolver_witness :
    (cachedGet prepC10 cacheC10 "AAPL" = (some [(0, 1)], cacheC10)
      ∧ cachedGet (fun _ => Option.none) cacheC10 "AAPL" =
        (some [(0, 1)], cacheC10))
    ∧ cachedGet prepC10 cacheC10 "GME" = (Option.none, cacheC10)
    ∧ cachedGet prepC10 cacheC10 "MSFT" =
      (some [(2, 5)], dictInsert cacheC10 "MSFT" [(2, 5)]) :=
  ⟨(C10_cache_resolver prepC10 (fun _ => Option.none) cacheC10 "AAPL").1
      [(0, 1)] (by decide),
   (C10_cache_resolver prepC10 prepC10 cacheC10 "GME").2.1 (by decide)
      (by decide),
   (C10_cache_resolver prepC10 prepC10 cacheC10 "MSFT").2.2 [(2, 5)]
      (by decide) (by decide)⟩

/-- A preparer resolving the two candidates A and B, each overlapping
`mainA` in a single timestamp. -/
def prepTwo : String → Option (List (Nat × ℚ)) :=
  fun s => if s = "A" then some [(1, 5), (2, 6)]
           else if s = "B" then some [(1, 7), (2, 8)] else Option.none

/-- C1 counterexample: the thread-parallel pass is not equivalent to the
sequential pass.  Under the schedule in which both workers read the window
as absent before either installs it (both check, A inits and writes, B
inits — erasing the entry A recorded — and writes), the completed execution
(all residual task lists empty) holds no entry for candidate A, while the
sequential pass records one: execution mode is semantically observable. -/
theorem C1_counterexample_thread_lost_update :
    (multithread_interleaved prepTwo "2023" [mainA] ["A", "B"]
        [0, 1, 0, 0, 1, 1]).2 = [[], []]
    ∧ runLookup (multithread_interleaved prepTwo "2023" [mainA] ["A", "B"]
        [0, 1, 0, 0, 1, 1]).1 0 "2023" "A" = Option.none
    ∧ runLookup (define_correlations_for_series_list prepTwo "2023" [mainA]
        ["A", "B"]) 0 "2023" "A" ≠ Option.none := by decide

/-- C1 (amended): over a fixed candidate universe whose preparations all
complete (none raises), and a cache consistent with the preparer, the
sequential and the process-parallel pass produce identical
all_correlations content before ranking (exact equality here, the
embedding being exact rational arithmetic).  The thread-parallel pass does
not share this guarantee: its unsynchronized check-then-initialize on the
shared map can lose concurrent writes (see the counterexample), so
execution mode is observable there. -/
theorem C1_seq_mp_equivalence
    (p : String → PrepOutcome)
    (cache : List (String × List (Nat × ℚ)))
    (hcache : cacheConsistentE p cache)
    (symbols : List String)
    (hnr : ∀ s ∈ symbols, ¬ p s = PrepOutcome.raises)
    (w : String) (mains : List MainSec) (i : Nat) (w' s : String) :
    (mpRunE p cache w mains symbols).map (fun ms => runLookup ms i w' s) =
      Except.ok (runLookup (define_correlations_for_series_list (collapse p)
        w mains symbols) i w' s) := by
  rw [mpRunE_characterize p cache w mains symbols hcache]
  have hany : symbols.any (prepRaises p) = false := by
    rw [List.any_eq_false]
    intro x hx
    unfold prepRaises
    cases hq : p x with
    | raises => exact absurd hq (hnr x hx)
    | noData => simp
    | ok d => simp
  rw [hany]
  simp only [Bool.false_eq_true, if_false, Except.map]
  unfold define_correlations_for_series_list
  rw [runLookup_foldl, runLookup_foldl]
  cases hm : mains[i]? <;> cases hp : collapse p s <;>
    simp [List.mem_dedup]

/-- An exception-aware preparer resolving only AAPL, never raising. -/
def prepE : String → PrepOutcome :=
  fun s => if s = "AAPL" then PrepOutcome.ok [(1, 7), (2, 9)]
           else PrepOutcome.noData

/-- Witness for C1 at a concrete non-raising preparer, empty cache, symbol
list and main security. -/
theorem C1_seq_mp_equivalence_witness :
    (mpRunE prepE [] "2023" [mainA] ["AAPL"]).map
        (fun ms => runLookup ms 0 "2023" "AAPL") =
      Except.ok (runLookup (define_correlations_for_series_list
        (collapse prepE) "2023" [mainA] ["AAPL"]) 0 "2023" "AAPL") :=
  C1_seq_mp_equivalence prepE [] (fun _ _ h => Option.noConfusion h)
    ["AAPL"] (by decide) "2023" [mainA] 0 "2023" "AAPL"

/-- C7 (amended): for a main security of the plain Security variant, a
candidate symbol equal to its own identity is always excluded: in every
execution mode the entry of all_correlations under the own symbol is
exactly what it was before the pass.  (For the Fred variants the guard of
the source does not apply; see the counterexample.) -/
theorem C7_self_exclusion_for_security_variant
    (prepare : String → Option (List (Nat × ℚ)))
    (cache : List (String × List (Nat × ℚ)))
    (hcache : cacheConsistent prepare cache)
    (symbols threadOrder : List String) (w : String)
    (mains : List MainSec) (i : Nat) (m : MainSec)
    (hm : mains[i]? = some m) (hkind : m.kind = SecKind.security)
    (w' : String) :
    runLookup (define_correlations_for_series_list prepare w mains symbols)
        i w' m.symbol = runLookup mains i w' m.symbol
    ∧ runLookup (define_correlations_for_series_list_multiprocessing prepare
        cache w mains symbols) i w' m.symbol = runLookup mains i w' m.symbol
    ∧ runLookup (define_correlations_for_series_list_multithread prepare w
        mains threadOrder) i w' m.symbol = runLookup mains i w' m.symbol := by
  have hskip : skipSelf m m.symbol = true := by
    unfold skipSelf
    rw [hkind]
    simp
  have hbase : runLookup mains i w' m.symbol =
      alLookup m.all_correlations w' m.symbol := by
    unfold runLookup
    rw [hm]
  refine ⟨?_, ?_, ?_⟩
  · unfold define_correlations_for_series_list
    rw [runLookup_foldl, hm, hbase]
    cases hp : prepare m.symbol
    · rfl
    · simp [hskip]
  · rw [mp_run_eq prepare cache w mains symbols hcache,
      runLookup_foldl, hm, hbase]
    cases hp : prepare m.symbol
    · rfl
    · simp [hskip]
  · unfold define_correlations_for_series_list_multithread
    rw [runLookup_foldl, hm, hbase]
    cases hp : prepare m.symbol
    · rfl
    · simp [hskip]

/-- A preparer that resolves the identity of `mainA` itself. -/
def prepMAIN : String → Option (List (Nat × ℚ)) :=
  fun s => if s = "MAIN" then some [(1, 7), (2, 9)] else Option.none

/-- Witness for C7: a Security-variant main compared against its own symbol
keeps its (absent) entry in every mode. -/
theorem C7_self_exclusion_witness :
    runLookup (define_correlations_for_series_list prepMAIN "2023" [mainA]
        ["MAIN"]) 0 "2023" "MAIN" = runLookup [mainA] 0 "2023" "MAIN"
    ∧ runLookup (define_correlations_for_series_list_multiprocessing prepMAIN
        [] "2023" [mainA] ["MAIN"]) 0 "2023" "MAIN" =
      runLookup [mainA] 0 "2023" "MAIN"
    ∧ runLookup (define_correlations_for_series_list_multithread prepMAIN
        "2023" [mainA] ["MAIN"]) 0 "2023" "MAIN" =
      runLookup [mainA] 0 "2023" "MAIN" :=
  C7_self_exclusion_for_security_variant prepMAIN []
    (fun _ _ h => Option.noConfusion h) ["MAIN"] ["MAIN"] "2023" [mainA] 0
    mainA rfl rfl "2023"

/-- A Fred-variant main security whose identity collides with a candidate
symbol. -/
def fredMain : MainSec :=
  { kind := SecKind.fredmd, symbol := "UNRATE",
    series_data_detrended := fun _ => [(0, 1), (1, 2)],
    all_correlations := [] }

/-- A preparer resolving the candidate UNRATE. -/
def prepFred : String → Option (List (Nat × ℚ)) :=
  fun s => if s = "UNRATE" then some [(1, 7), (2, 9)] else Option.none

/-- C7 counterexample: for a Fred-variant main security the self-comparison
guard (an isinstance check against the Security class) does not apply, so
the candidate equal to its own identity is compared and recorded as a key
of its all_correlations map. -/
theorem C7_counterexample_fred_variant_self_compared :
    runLookup (define_correlations_for_series_list prepFred "2023" [fredMain]
      ["UNRATE"]) 0 "2023" "UNRATE" ≠ Option.none := by decide

/-- An exception-aware preparer: AAPL resolves, BADPARQUET raises
(the AttributeError of the yahoo frame handling), everything else returns
no data. -/
def prepE9 : String → PrepOutcome :=
  fun s => if s = "AAPL" then PrepOutcome.ok [(1, 7), (2, 9)]
           else if s = "BADPARQUET" then PrepOutcome.raises
           else PrepOutcome.noData

/-- C9 counterexample: in process-parallel mode a preparation that raises
is not reported as no result: `process_symbol` catches nothing, so the
exception propagates through the pool and the whole batch aborts — the
healthy symbol AAPL is not processed either. -/
theorem C9_counterexample_pool_abort :
    mpRunE prepE9 [] "2023" [mainA] ["BADPARQUET", "AAPL"] =
      Except.error () := rfl

/-- C9 (amended): a candidate symbol whose preparation fails (raises) or
yields no data is skipped with the batch continuing in the sequential pass
(which catches AttributeError and absorbs a None result through the caught
per-pair TypeError) and in the thread worker (whose task list for the
symbol is empty, so it touches nothing in any interleaving), and nothing
is recorded under the symbol; in process-parallel mode only a preparation
that returns no data is skipped with the batch continuing — a raising
preparation aborts the whole pool (see the counterexample). -/
theorem C9_failed_symbol_skipped_amended
    (p : String → PrepOutcome) (s0 : String)
    (hs0 : collapse p s0 = Option.none)
    (cache : List (String × List (Nat × ℚ)))
    (hcache : cacheConsistentE p cache)
    (pre post : List String) (w : String) (mains : List MainSec)
    (i : Nat) (w' s : String) :
    runLookup (define_correlations_for_series_list (collapse p) w mains
        (pre ++ s0 :: post)) i w' s =
      runLookup (define_correlations_for_series_list (collapse p) w mains
        (pre ++ post)) i w' s
    ∧ workerTasks (collapse p) w mains s0 = []
    ∧ (p s0 = PrepOutcome.noData →
        mpRunE p cache w mains (pre ++ s0 :: post) =
          mpRunE p cache w mains (pre ++ post))
    ∧ runLookup (define_correlations_for_series_list (collapse p) w mains
        (pre ++ s0 :: post)) i w' s0 = runLookup mains i w' s0 := by
  refine ⟨?_, ?_, ?_, ?_⟩
  · unfold define_correlations_for_series_list
    rw [runLookup_foldl, runLookup_foldl]
    cases hm : mains[i]? <;> cases hp : collapse p s
    · rfl
    · rfl
    · rfl
    · have hss0 : ¬ s = s0 := by
        intro he
        rw [he, hs0] at hp
        exact Option.noConfusion hp
      simp [List.mem_dedup, List.mem_append, List.mem_cons, hss0]
  · unfold workerTasks
    rw [hs0]
  · intro hnd
    rw [mpRunE_characterize p cache w mains _ hcache,
      mpRunE_characterize p cache w mains _ hcache]
    have hpr0 : prepRaises p s0 = false := by
      unfold prepRaises
      rw [hnd]
    have hany : (pre ++ s0 :: post).any (prepRaises p) =
        (pre ++ post).any (prepRaises p) := by
      rw [List.any_append, List.any_append, List.any_cons, hpr0,
        Bool.false_or]
    rw [hany]
    have hstep0 : stepSymbol (collapse p) w
        (pre.foldl (stepSymbol (collapse p) w) mains) s0 =
        pre.foldl (stepSymbol (collapse p) w) mains := by
      unfold stepSymbol
      rw [hs0]
    have hfold : (pre ++ s0 :: post).foldl (stepSymbol (collapse p) w) mains =
        (pre ++ post).foldl (stepSymbol (collapse p) w) mains := by
      rw [List.foldl_append, List.foldl_append, List.foldl_cons, hstep0]
    rw [hfold]
  · unfold define_correlations_for_series_list
    rw [runLookup_foldl]
    cases hm : mains[i]? <;> simp [hs0, runLookup, hm]

/-- Witness for C9: the no-data symbol NODATA is skipped and AAPL is still
processed — sequentially, by the (empty) thread worker, and through the
pool — and nothing is recorded under NODATA. -/
theorem C9_failed_symbol_skipped_witness :
    runLookup (define_correlations_for_series_list (collapse prepE9) "2023"
        [mainA] (["AAPL"] ++ "NODATA" :: [])) 0 "2023" "AAPL" =
      runLookup (define_correlations_for_series_list (collapse prepE9) "2023"
        [mainA] (["AAPL"] ++ [])) 0 "2023" "AAPL"
    ∧ workerTasks (collapse prepE9) "2023" [mainA] "NODATA" = []
    ∧ mpRunE prepE9 [] "2023" [mainA] (["AAPL"] ++ "NODATA" :: []) =
      mpRunE prepE9 [] "2023" [mainA] (["AAPL"] ++ [])
    ∧ runLookup (define_correlations_for_series_list (collapse prepE9) "2023"
        [mainA] (["AAPL"] ++ "NODATA" :: [])) 0 "2023" "NODATA" =
      runLookup [mainA] 0 "2023" "NODATA" := by
  have h := C9_failed_symbol_skipped_amended prepE9 "NODATA" (by decide) []
    (fun _ _ hx => Option.noConfusion hx) ["AAPL"] [] "2023" [mainA] 0
    "2023" "AAPL"
  exact ⟨h.1, h.2.1, h.2.2.1 (by decide), h.2.2.2⟩

/-- A main security carrying a one-entry correlation map for window 2023
and empty ranked lists. -/
def rankedC3 : RankedSec :=
  { symbol := "MAIN", all_correlations := [("2023", some [("X", 3)])],
    positive_correlations := [], negative_correlations := [] }

/-- C3 (amended): for a main security whose window holds a (non-empty)
correlation map of size M with empty ranked lists, ranking appends exactly
min(M, 100) entries to positive_correlations sorted descending by value and
min(M, 100) entries to negative_correlations sorted ascending, and replaces
all_correlations[window] by the None marker (not an empty map). -/
theorem C3_ranking_amended (m : RankedSec) (w : String)
    (dict : List (String × ℚ))
    (hac : dictFind m.all_correlations w = some (some dict))
    (hne : dict ≠ [])
    (hpos : dictFind m.positive_correlations w = Option.none)
    (hneg : dictFind m.negative_correlations w = Option.none) :
    define_top_correlations [w] [m] = Except.ok [rankedOf [w] m]
    ∧ ((dictFind (rankedOf [w] m).positive_correlations w).getD []).length =
      min dict.length 100
    ∧ List.Pairwise (fun a b : String × ℚ => b.2 ≤ a.2)
      ((dictFind (rankedOf [w] m).positive_correlations w).getD [])
    ∧ ((dictFind (rankedOf [w] m).negative_correlations w).getD []).length =
      min dict.length 100
    ∧ List.Pairwise (fun a b : String × ℚ => a.2 ≤ b.2)
      ((dictFind (rankedOf [w] m).negative_correlations w).getD [])
    ∧ dictFind (rankedOf [w] m).all_correlations w = some Option.none := by
  have hdtc : define_top_correlations [w] [m] =
      (rankMain [w] m).map (fun m' => [m']) :=
    define_top_correlations_singleton [w] m
  rw [rankMain_singleton, rankWindow_eq m w dict hac hne] at hdtc
  have hro := rankedOf_eq [w] m _ hdtc
  refine ⟨by rw [hdtc, hro]; rfl, ?_, ?_, ?_, ?_, ?_⟩ <;> rw [hro]
  · show ((dictFind (dictInsert m.positive_correlations w
        (((dictFind m.positive_correlations w).getD []) ++ posEntriesOf dict))
        w).getD []).length = min dict.length 100
    rw [dictFind_dictInsert, if_pos rfl, hpos]
    simpa using posEntriesOf_length dict
  · show List.Pairwise (fun a b : String × ℚ => b.2 ≤ a.2)
      ((dictFind (dictInsert m.positive_correlations w
        (((dictFind m.positive_correlations w).getD []) ++ posEntriesOf dict))
        w).getD [])
    rw [dictFind_dictInsert, if_pos rfl, hpos]
    simpa using posEntriesOf_sorted dict
  · show ((dictFind (dictInsert m.negative_correlations w
        (((dictFind m.negative_correlations w).getD []) ++ negEntriesOf dict))
        w).getD []).length = min dict.length 100
    rw [dictFind_dictInsert, if_pos rfl, hneg]
    simpa using negEntriesOf_length dict
  · show List.Pairwise (fun a b : String × ℚ => a.2 ≤ b.2)
      ((dictFind (dictInsert m.negative_correlations w
        (((dictFind m.negative_correlations w).getD []) ++ negEntriesOf dict))
        w).getD [])
    rw [dictFind_dictInsert, if_pos rfl, hneg]
    simpa using negEntriesOf_sorted dict
  · show dictFind (dictInsert m.all_correlations w Option.none) w =
      some Option.none
    rw [dictFind_dictInsert, if_pos rfl]

/-- Witness for C3 at the one-entry map of `rankedC3`. -/
theorem C3_ranking_amended_witness :
    define_top_correlations ["2023"] [rankedC3] =
      Except.ok [rankedOf ["2023"] rankedC3]
    ∧ ((dictFind (rankedOf ["2023"] rankedC3).positive_correlations
        "2023").getD []).length = min [("X", (3 : ℚ))].length 100
    ∧ List.Pairwise (fun a b : String × ℚ => b.2 ≤ a.2)
      ((dictFind (rankedOf ["2023"] rankedC3).positive_correlations
        "2023").getD [])
    ∧ ((dictFind (rankedOf ["2023"] rankedC3).negative_correlations
        "2023").getD []).length = min [("X", (3 : ℚ))].length 100
    ∧ List.Pairwise (fun a b : String × ℚ => a.2 ≤ b.2)
      ((dictFind (rankedOf ["2023"] rankedC3).negative_correlations
        "2023").getD [])
    ∧ dictFind (rankedOf ["2023"] rankedC3).all_correlations "2023" =
      some Option.none :=
  C3_ranking_amended rankedC3 "2023" [("X", 3)] rfl
    (List.cons_ne_nil _ _) rfl rfl

/-- C3 counterexample: after ranking, the raw map of the window is not set
to an empty map: it is replaced by the None marker (in the source,
`all_correlations[start_date] = None`), which is observably different from
an empty dict. -/
theorem C3_counterexample_map_set_to_none :
    (define_top_correlations ["2023"] [rankedC3]).map
        (fun l => l.map (fun m => dictFind m.all_correlations "2023"))
      = Except.ok [some Option.none]
    ∧ some (Option.none : Option (List (String × ℚ))) ≠ some (some []) :=
  ⟨rfl, fun h => Option.noConfusion (Option.some.inj h)⟩

end SecCorr
